import Mathlib

/-
Shallow embedding of src/core/qa_pipeline.py, function get_answer, for the
Multilingual-Voice-QA repository.  Text is modelled as List Char (Python str
slicing t[i:i+n] becomes (t.drop i).take n).  The confidence scores returned
by the external scorer are modelled as rationals; the procedure only compares
them, never computes with them.  The external question-answering pipeline
(qa_pipeline(question=..., context=..., top_k=3, handle_impossible_answer=True))
is modelled as an abstract function from (question, context) to an optional
list of raw candidates; a Python exception raised by a per-chunk call is the
none case (the except branch only prints and continues).
-/

namespace QAPipe

abbrev Text := List Char

/-- max_chunk_len = 512 in get_answer. -/
def max_chunk_len : Nat := 512

/-- overlap = 100 in get_answer. -/
def overlap : Nat := 100

/-- Python range(0, stop, step) for step > 0: the offsets 0, step, 2*step, ...
that are < stop; there are ceil(stop/step) of them. -/
def pyRange (stop step : Nat) : List Nat :=
  (List.range ((stop + step - 1) / step)).map (fun k => k * step)

/-- One raw candidate as returned by the external scorer: an answer text
(none models an absent 'answer' key) and a confidence score.  The raw scorer
output carries no context field. -/
structure RawCandidate where
  answer : Option Text
  score : ℚ
deriving DecidableEq

/-- A pooled candidate after get_answer has attached the chunk it was scored
against (result['context'] = chunk). -/
structure Candidate where
  answer : Option Text
  score : ℚ
  context : Text
deriving DecidableEq

/-- The dict returned by get_answer: keys 'answer', 'score', 'context'. -/
structure AnswerResult where
  answer : Text
  score : ℚ
  context : Text
deriving DecidableEq

/-- The external extractive scorer: question and context in, either a list of
raw candidates (the successful call) or none (the call raised). -/
abbrev Scorer := Text → Text → Option (List RawCandidate)

/-- The generative model component: its name_or_path and the composed
tokenize-generate-decode step applied to the input text. -/
structure GenModel where
  name_or_path : Text
  generate : Text → Text

/-- model_components as produced by load_model_components: a 'model' entry
(populated for the FLAN-T5 generative configuration) and a 'pipeline' entry. -/
structure ModelComponents where
  model : Option GenModel
  pipeline : Scorer

/-- The pdf_text argument: a Python str, None, or a non-str object (the
rendered field is its str() image, used only by the generative f-string). -/
inductive PdfText where
  | str (t : Text)
  | pyNone
  | nonString (rendered : Text)

/-- The guard `if pdf_text and isinstance(pdf_text, str)`: true exactly for a
non-empty string. -/
def PdfText.isUsable : PdfText → Bool
  | .str t => !t.isEmpty
  | _ => false

/-- How pdf_text prints inside the generative path's f-string. -/
def PdfText.render : PdfText → Text
  | .str t => t
  | .pyNone => "None".data
  | .nonString r => r

/-- The chunk list built by get_answer:
for i in range(0, len(pdf_text), max_chunk_len - overlap):
    chunks.append(pdf_text[i:i + max_chunk_len]),
guarded by `if pdf_text and isinstance(pdf_text, str)`. -/
def chunksOf (pdf_text : PdfText) : List Text :=
  match pdf_text with
  | .str t =>
      if t.isEmpty then []
      else (pyRange t.length (max_chunk_len - overlap)).map
        (fun i => (t.drop i).take max_chunk_len)
  | _ => []

/-- Does pat occur as a contiguous run at the head of s. -/
def startsWith : Text → Text → Bool
  | [], _ => true
  | _ :: _, [] => false
  | a :: as, b :: bs => a == b && startsWith as bs

/-- Python `pat in s` for strings: pat occurs contiguously somewhere in s. -/
def containsSub (pat : Text) : Text → Bool
  | [] => startsWith pat []
  | c :: rest => startsWith pat (c :: rest) || containsSub pat rest

/-- The BUG FIX loop: attach the chunk as 'context' to every raw result. -/
def annotate (chunk : Text) (rs : List RawCandidate) : List Candidate :=
  rs.map (fun r => ⟨r.answer, r.score, chunk⟩)

/-- The body of the per-chunk loop: call the scorer on one chunk; on success
annotate the results with the chunk and extend all_candidates; on a raised
exception print and continue, leaving all_candidates unchanged. -/
def collectStep (scorer : Scorer) (question : Text) (acc : List Candidate)
    (chunk : Text) : List Candidate :=
  match scorer question chunk with
  | some results => acc ++ annotate chunk results
  | none => acc

/-- The per-chunk loop: fold the loop body over the chunks in order, starting
from the empty all_candidates list. -/
def collectCandidates (scorer : Scorer) (question : Text) (chunks : List Text) :
    List Candidate :=
  chunks.foldl (collectStep scorer question) []

/-- The filter `if cand.get('answer')`: the 'answer' value is present and is a
non-empty string. -/
def valid (c : Candidate) : Bool :=
  match c.answer with
  | some a => !a.isEmpty
  | none => false

/-- Python max(valid_candidates, key=lambda x: x['score']): scan left to
right, replacing the current best only on a strictly larger key, so the first
maximal element wins. -/
def pickBest : Candidate → List Candidate → Candidate
  | b, [] => b
  | b, c :: cs => pickBest (if b.score < c.score then c else b) cs

/-- Sentinel returned when the chunk list is empty. -/
def emptyDocResult : AnswerResult :=
  ⟨"The document appears to be empty.".data, 0, "N/A".data⟩

/-- Sentinel returned when valid_candidates is empty. -/
def noAnswerResult : AnswerResult :=
  ⟨"Sorry, I couldn\x27t find a confident answer in the document.".data, 0, "N/A".data⟩

/-- The fixed 'context' string of the generative path's return value. -/
def genContextNote : Text :=
  "Answer was generated, not extracted. The model used the full document as context.".data

/-- A trace of the external calls made: the inputs passed to the generative
model and the contexts passed to the extractive scorer, in call order. -/
structure Trace where
  genInputs : List Text
  scorerContexts : List Text
deriving DecidableEq

/-- The extractive branch of get_answer (everything after the else), paired
with the trace of scorer invocations. -/
def extractivePath (scorer : Scorer) (question : Text) (pdf_text : PdfText) :
    AnswerResult × Trace :=
  let chunks := chunksOf pdf_text
  if chunks.isEmpty then (emptyDocResult, ⟨[], []⟩)
  else
    match (collectCandidates scorer question chunks).filter valid with
    | [] => (noAnswerResult, ⟨[], chunks⟩)
    | b :: rest =>
        let best := pickBest b rest
        (⟨best.answer.getD [], best.score, best.context⟩, ⟨[], chunks⟩)

/-- get_answer together with the trace of external invocations.  The
generative path is taken when model_components.get('model') is truthy and
't5' occurs in model.name_or_path; it builds
f"question: {question} context: {pdf_text}", invokes the model once on it and
returns score 1.0 with the fixed context note, substituting a fallback answer
text when the generated answer is empty. -/
def get_answerT (mc : ModelComponents) (question : Text) (pdf_text : PdfText) :
    AnswerResult × Trace :=
  match mc.model with
  | some m =>
      if containsSub "t5".data m.name_or_path then
        let input_text :=
          "question: ".data ++ question ++ " context: ".data ++ pdf_text.render
        let answer := m.generate input_text
        (⟨if answer.isEmpty then "FLAN-T5 could not generate an answer.".data
          else answer, 1, genContextNote⟩,
         ⟨[input_text], []⟩)
      else extractivePath mc.pipeline question pdf_text
  | none => extractivePath mc.pipeline question pdf_text

/-- get_answer: the returned dict alone. -/
def get_answer (mc : ModelComponents) (question : Text) (pdf_text : PdfText) :
    AnswerResult :=
  (get_answerT mc question pdf_text).1

/-! Helper lemmas about the chunking loop. -/

lemma isEmpty_false_of_ne_nil {α : Type _} {t : List α} (h : t ≠ []) :
    t.isEmpty = false := by
  cases t with
  | nil => exact absurd rfl h
  | cons a as => rfl

lemma chunksOf_str (t : Text) (h : t ≠ []) :
    chunksOf (.str t) =
      (List.range ((t.length + (max_chunk_len - overlap) - 1) / (max_chunk_len - overlap))).map
        (fun k => (t.drop (k * (max_chunk_len - overlap))).take max_chunk_len) := by
  simp only [chunksOf, isEmpty_false_of_ne_nil h, Bool.false_eq_true, if_false,
    pyRange, List.map_map]
  rfl

lemma chunksOf_str_length (t : Text) (h : t ≠ []) :
    (chunksOf (.str t)).length =
      (t.length + (max_chunk_len - overlap) - 1) / (max_chunk_len - overlap) := by
  rw [chunksOf_str t h, List.length_map, List.length_range]

lemma ceil_div_split (L s : Nat) (hL : 1 ≤ L) (hs : 0 < s) :
    (L + s - 1) / s = (L - 1) / s + 1 := by
  have hrw : L + s - 1 = (L - 1) + s := by omega
  rw [hrw, Nat.add_div_right _ hs]

lemma window_length (t : Text) (i n : Nat) :
    ((t.drop i).take n).length = min n (t.length - i) := by
  rw [List.length_take, List.length_drop]

/-! Helper lemmas about the selection step (Python max) and the
candidate-collection loop. -/

lemma pickBest_cons (b c : Candidate) (cs : List Candidate) :
    pickBest b (c :: cs) = pickBest (if b.score < c.score then c else b) cs := rfl

lemma pickBest_mem (b : Candidate) (cs : List Candidate) :
    pickBest b cs ∈ b :: cs := by
  induction cs generalizing b with
  | nil => simp [pickBest]
  | cons c cs ih =>
      rw [pickBest_cons]
      by_cases hbc : b.score < c.score
      · simp only [hbc, if_true]
        exact List.mem_cons_of_mem b (ih c)
      · simp only [hbc, if_false]
        rcases List.mem_cons.mp (ih b) with h | h
        · simp [h]
        · exact List.mem_cons_of_mem _ (List.mem_cons_of_mem _ h)

lemma pickBest_score_le (b : Candidate) (cs : List Candidate) :
    ∀ d ∈ b :: cs, d.score ≤ (pickBest b cs).score := by
  induction cs generalizing b with
  | nil =>
      intro d hd
      rcases List.mem_cons.mp hd with h | h
      · subst h; exact le_refl _
      · cases h
  | cons c cs ih =>
      intro d hd
      rw [pickBest_cons]
      have hble : b.score ≤ (if b.score < c.score then c else b).score := by
        by_cases hbc : b.score < c.score
        · simp only [hbc, if_true]; exact le_of_lt hbc
        · simp only [hbc, if_false]; exact le_refl _
      have hcle : c.score ≤ (if b.score < c.score then c else b).score := by
        by_cases hbc : b.score < c.score
        · simp only [hbc, if_true]; exact le_refl _
        · simp only [hbc, if_false]; exact le_of_not_lt hbc
      have hhead : ((if b.score < c.score then c else b) : Candidate).score ≤
          (pickBest (if b.score < c.score then c else b) cs).score :=
        ih _ _ (List.mem_cons_self _ _)
      rcases List.mem_cons.mp hd with h | h
      · subst h; exact le_trans hble hhead
      · rcases List.mem_cons.mp h with h' | h'
        · subst h'; exact le_trans hcle hhead
        · exact ih _ _ (List.mem_cons_of_mem _ h')

lemma pickBest_first (b : Candidate) (cs : List Candidate) :
    ∃ l1 l2, b :: cs = l1 ++ pickBest b cs :: l2 ∧
      ∀ d ∈ l1, d.score < (pickBest b cs).score := by
  induction cs generalizing b with
  | nil => exact ⟨[], [], rfl, by intro d hd; cases hd⟩
  | cons c cs ih =>
      rw [pickBest_cons]
      by_cases hbc : b.score < c.score
      · simp only [hbc, if_true]
        obtain ⟨l1, l2, heq, hlt⟩ := ih c
        refine ⟨b :: l1, l2, ?_, ?_⟩
        · simp only [List.cons_append]
          exact congrArg (fun l => b :: l) heq
        · intro d hd
          rcases List.mem_cons.mp hd with h | h
          · subst h
            exact lt_of_lt_of_le hbc (pickBest_score_le c cs c (List.mem_cons_self _ _))
          · exact hlt d h
      · simp only [hbc, if_false]
        obtain ⟨l1, l2, heq, hlt⟩ := ih b
        cases l1 with
        | nil =>
            simp only [List.nil_append] at heq
            obtain ⟨hb0, -⟩ := List.cons_eq_cons.mp heq
            refine ⟨[], c :: cs, ?_, by intro d hd; cases hd⟩
            rw [List.nil_append, ← hb0]
        | cons x l1' =>
            rw [List.cons_append] at heq
            obtain ⟨hx, htail⟩ := List.cons_eq_cons.mp heq
            have hbmem : b ∈ x :: l1' := by rw [hx]; exact List.mem_cons_self _ _
            refine ⟨b :: c :: l1', l2, ?_, ?_⟩
            · simp only [List.cons_append]
              exact congrArg (fun l => b :: c :: l) htail
            · intro d hd
              rcases List.mem_cons.mp hd with h | h
              · rw [h]
                exact hlt b hbmem
              · rcases List.mem_cons.mp h with h' | h'
                · rw [h']
                  exact lt_of_le_of_lt (le_of_not_lt hbc) (hlt b hbmem)
                · exact hlt d (List.mem_cons_of_mem _ h')

/-! Helper lemmas about the candidate-collection loop. -/

lemma collect_fold_mem (s : Scorer) (q : Text) :
    ∀ (l : List Text) (acc : List Candidate) (c : Candidate),
      c ∈ l.foldl (collectStep s q) acc →
      c ∈ acc ∨ ∃ ch ∈ l, ∃ rs, s q ch = some rs ∧
        ∃ r ∈ rs, c = ⟨r.answer, r.score, ch⟩ := by
  intro l
  induction l with
  | nil => intro acc c hc; exact Or.inl hc
  | cons ch l ih =>
      intro acc c hc
      rw [List.foldl_cons] at hc
      rcases ih _ c hc with hacc | ⟨ch', hch', rs, hrs, r, hr, hcr⟩
      · unfold collectStep at hacc
        cases hs : s q ch with
        | none => rw [hs] at hacc; exact Or.inl hacc
        | some rs =>
            rw [hs] at hacc
            rcases List.mem_append.mp hacc with h | h
            · exact Or.inl h
            · obtain ⟨r, hr, hcr⟩ := List.mem_map.mp h
              exact Or.inr ⟨ch, List.mem_cons_self _ _, rs, hs, r, hr, hcr.symm⟩
      · exact Or.inr ⟨ch', List.mem_cons_of_mem _ hch', rs, hrs, r, hr, hcr⟩

lemma collect_mem (s : Scorer) (q : Text) (l : List Text) (c : Candidate)
    (hc : c ∈ collectCandidates s q l) :
    ∃ ch ∈ l, ∃ rs, s q ch = some rs ∧ ∃ r ∈ rs, c = ⟨r.answer, r.score, ch⟩ := by
  rcases collect_fold_mem s q l [] c hc with h | h
  · cases h
  · exact h

lemma collect_fold_congr (s s' : Scorer) (q : Text) :
    ∀ (l : List Text) (acc : List Candidate),
      (∀ ch ∈ l, s' q ch = some ((s q ch).getD [])) →
      l.foldl (collectStep s' q) acc = l.foldl (collectStep s q) acc := by
  intro l
  induction l with
  | nil => intro acc _; rfl
  | cons ch l ih =>
      intro acc h
      rw [List.foldl_cons, List.foldl_cons]
      have hstep : collectStep s' q acc ch = collectStep s q acc ch := by
        unfold collectStep
        rw [h ch (List.mem_cons_self _ _)]
        cases hs : s q ch with
        | none => simp [annotate]
        | some rs => rfl
      rw [hstep]
      exact ih _ (fun ch' hch' => h ch' (List.mem_cons_of_mem _ hch'))

lemma collect_congr (s s' : Scorer) (q : Text) (l : List Text)
    (h : ∀ ch ∈ l, s' q ch = some ((s q ch).getD [])) :
    collectCandidates s' q l = collectCandidates s q l :=
  collect_fold_congr s s' q l [] h

/-- A chunk is a contiguous substring of the document it was cut from. -/
lemma chunk_occurs (t : Text) (i n : Nat) :
    ∃ u v, t = u ++ (t.drop i).take n ++ v := by
  refine ⟨t.take i, (t.drop i).drop n, ?_⟩
  rw [List.append_assoc, List.take_append_drop, List.take_append_drop]

lemma mem_chunksOf_str (t c : Text) (h : t ≠ []) (hc : c ∈ chunksOf (.str t)) :
    ∃ k, k * (max_chunk_len - overlap) < t.length ∧
      c = (t.drop (k * (max_chunk_len - overlap))).take max_chunk_len := by
  rw [chunksOf_str t h] at hc
  obtain ⟨k, hk, hck⟩ := List.mem_map.mp hc
  rw [List.mem_range] at hk
  refine ⟨k, ?_, hck.symm⟩
  have hL : 1 ≤ t.length := by
    cases t with
    | nil => exact absurd rfl h
    | cons a as => exact Nat.succ_le_succ (Nat.zero_le _)
  have hsplit := ceil_div_split t.length (max_chunk_len - overlap) hL (by norm_num [max_chunk_len, overlap])
  rw [hsplit] at hk
  have hk' : k ≤ (t.length - 1) / (max_chunk_len - overlap) := Nat.lt_succ_iff.mp hk
  have h1 : k * (max_chunk_len - overlap) ≤
      ((t.length - 1) / (max_chunk_len - overlap)) * (max_chunk_len - overlap) :=
    Nat.mul_le_mul_right _ hk'
  have h2 : ((t.length - 1) / (max_chunk_len - overlap)) * (max_chunk_len - overlap) ≤
      t.length - 1 := Nat.div_mul_le_self _ _
  omega

/-! Unfolding lemmas for the three outcomes of the extractive path. -/

lemma get_answerT_none (s : Scorer) (q : Text) (t : PdfText) :
    get_answerT ⟨none, s⟩ q t = extractivePath s q t := rfl

lemma extractivePath_of_no_chunks (s : Scorer) (q : Text) (t : PdfText)
    (h : chunksOf t = []) : extractivePath s q t = (emptyDocResult, ⟨[], []⟩) := by
  unfold extractivePath
  rw [h]
  rfl

lemma extractivePath_of_no_valid (s : Scorer) (q : Text) (t : PdfText)
    (h1 : chunksOf t ≠ [])
    (h2 : (collectCandidates s q (chunksOf t)).filter valid = []) :
    extractivePath s q t = (noAnswerResult, ⟨[], chunksOf t⟩) := by
  unfold extractivePath
  simp only [isEmpty_false_of_ne_nil h1, Bool.false_eq_true, if_false, h2]

lemma extractivePath_of_valid (s : Scorer) (q : Text) (t : PdfText)
    (b : Candidate) (rest : List Candidate)
    (h1 : chunksOf t ≠ [])
    (h2 : (collectCandidates s q (chunksOf t)).filter valid = b :: rest) :
    extractivePath s q t =
      (⟨(pickBest b rest).answer.getD [], (pickBest b rest).score,
        (pickBest b rest).context⟩, ⟨[], chunksOf t⟩) := by
  unfold extractivePath
  simp only [isEmpty_false_of_ne_nil h1, Bool.false_eq_true, if_false, h2]

lemma chunksOf_nil_of_not_usable (t : PdfText) (h : t.isUsable = false) :
    chunksOf t = [] := by
  cases t with
  | str u =>
      have hu : u.isEmpty = true := by
        simpa [PdfText.isUsable] using h
      simp [chunksOf, hu]
  | pyNone => rfl
  | nonString r => rfl

/-- C1, counterexample to the window-count formula of the claim: for the
413-character document the code produces 2 windows (offsets 0 and 412), while
the claimed formula ceil((L - overlap) / (max_chunk_len - overlap)) evaluates
to 1 at L = 413 > overlap. -/
theorem C1_counterexample :
    413 > overlap ∧
    (chunksOf (.str (List.replicate 413 'a'))).length = 2 ∧
    (413 - overlap + (max_chunk_len - overlap) - 1) / (max_chunk_len - overlap) = 1 := by
  refine ⟨by decide, ?_, by decide⟩
  show (chunksOf (.str (List.replicate 413 'a'))).length = 2
  have hne : List.replicate 413 'a' ≠ [] :=
    List.ne_nil_of_length_pos (by rw [List.length_replicate]; decide)
  rw [chunksOf_str_length _ hne, List.length_replicate]
  decide

/-- C1, amended: for a non-empty document of length L the chunking loop
produces exactly ceil(L / (max_chunk_len - overlap)) windows, the k-th window
starting at offset k * (max_chunk_len - overlap) and holding the next
max_chunk_len characters at most; every position of the document lies inside
at least one window. -/
theorem C1_window_layout (t : Text) (h : t ≠ []) :
    (chunksOf (.str t)).length =
      (t.length + (max_chunk_len - overlap) - 1) / (max_chunk_len - overlap) ∧
    chunksOf (.str t) =
      (List.range ((t.length + (max_chunk_len - overlap) - 1) / (max_chunk_len - overlap))).map
        (fun k => (t.drop (k * (max_chunk_len - overlap))).take max_chunk_len) ∧
    (∀ c ∈ chunksOf (.str t), c.length ≤ max_chunk_len) ∧
    (∀ p < t.length, ∃ k < (chunksOf (.str t)).length,
      k * (max_chunk_len - overlap) ≤ p ∧
      p < k * (max_chunk_len - overlap) +
        ((t.drop (k * (max_chunk_len - overlap))).take max_chunk_len).length) := by
  have hL1 : 1 ≤ t.length := List.length_pos.mpr h
  refine ⟨chunksOf_str_length t h, chunksOf_str t h, ?_, ?_⟩
  · intro c hc
    obtain ⟨k, hk, hck⟩ := mem_chunksOf_str t c h hc
    rw [hck, window_length]
    exact min_le_left _ _
  · intro p hp
    have h412 : max_chunk_len - overlap = 412 := by decide
    refine ⟨p / 412, ?_, ?_, ?_⟩
    · rw [chunksOf_str_length t h, h412,
        ceil_div_split t.length 412 hL1 (by decide)]
      omega
    · rw [h412]
      exact Nat.div_mul_le_self p 412
    · rw [h412, window_length]
      have hW : max_chunk_len = 512 := rfl
      rw [hW]
      omega

/-- C1 witness: the amended window-layout theorem applied to the concrete
document "abc". -/
theorem C1_window_layout_witness :
    "abc".data ≠ ([] : Text) ∧
    (chunksOf (.str "abc".data)).length =
      ("abc".data.length + (max_chunk_len - overlap) - 1) / (max_chunk_len - overlap) :=
  ⟨by decide, (C1_window_layout "abc".data (by decide)).1⟩

/-- C2: whenever the filtered candidate pool is non-empty, get_answer returns
the pool candidate with maximal confidenceScore; on ties the first candidate
in scan order (earliest window, then earliest candidate inside it — the pool
is built in exactly that order) is returned, with its score and context. -/
theorem C2_max_selection (s : Scorer) (q : Text) (t : PdfText)
    (h : (collectCandidates s q (chunksOf t)).filter valid ≠ []) :
    ∃ c l1 l2,
      (collectCandidates s q (chunksOf t)).filter valid = l1 ++ c :: l2 ∧
      (∀ d ∈ (collectCandidates s q (chunksOf t)).filter valid, d.score ≤ c.score) ∧
      (∀ d ∈ l1, d.score < c.score) ∧
      get_answer ⟨none, s⟩ q t = ⟨c.answer.getD [], c.score, c.context⟩ := by
  have hchunks : chunksOf t ≠ [] := by
    intro hnil
    apply h
    rw [hnil]
    rfl
  obtain ⟨b, rest, hvc⟩ :
      ∃ b rest, (collectCandidates s q (chunksOf t)).filter valid = b :: rest := by
    cases hv : (collectCandidates s q (chunksOf t)).filter valid with
    | nil => exact absurd hv h
    | cons b rest => exact ⟨b, rest, rfl⟩
  obtain ⟨l1, l2, heq, hlt⟩ := pickBest_first b rest
  refine ⟨pickBest b rest, l1, l2, by rw [hvc, heq], ?_, hlt, ?_⟩
  · intro d hd
    rw [hvc] at hd
    exact pickBest_score_le b rest d hd
  · show (extractivePath s q t).1 = _
    rw [extractivePath_of_valid s q t b rest hchunks hvc]

/-- C2 witness: a single-window document with three candidates of scores
2, 9, 5; the returned result is the score-9 candidate. -/
theorem C2_max_selection_witness :
    ∃ c l1 l2,
      (collectCandidates
          (fun _ _ => some [⟨some "x".data, 2⟩, ⟨some "y".data, 9⟩, ⟨some "z".data, 5⟩])
          "q".data (chunksOf (.str "abc".data))).filter valid = l1 ++ c :: l2 ∧
      (∀ d ∈ (collectCandidates
          (fun _ _ => some [⟨some "x".data, 2⟩, ⟨some "y".data, 9⟩, ⟨some "z".data, 5⟩])
          "q".data (chunksOf (.str "abc".data))).filter valid, d.score ≤ c.score) ∧
      (∀ d ∈ l1, d.score < c.score) ∧
      get_answer
          ⟨none, fun _ _ => some [⟨some "x".data, 2⟩, ⟨some "y".data, 9⟩, ⟨some "z".data, 5⟩]⟩
          "q".data (.str "abc".data) = ⟨c.answer.getD [], c.score, c.context⟩ :=
  C2_max_selection _ _ _ (by decide)

/-- C3: a window whose scorer call fails contributes nothing and aborts
nothing: get_answer under a scorer s equals get_answer under the scorer that
returns the empty candidate list exactly where s fails and agrees with s
elsewhere, so the final result is computed only from the successfully scored
windows (and get_answer is a total function - no failure propagates). -/
theorem C3_failure_isolated (s sr : Scorer) (q : Text) (t : PdfText)
    (h : ∀ ch ∈ chunksOf t, sr q ch = some ((s q ch).getD [])) :
    get_answer ⟨none, s⟩ q t = get_answer ⟨none, sr⟩ q t := by
  have hcc := collect_congr s sr q (chunksOf t) h
  show (extractivePath s q t).1 = (extractivePath sr q t).1
  by_cases hchunks : chunksOf t = []
  · rw [extractivePath_of_no_chunks s q t hchunks,
      extractivePath_of_no_chunks sr q t hchunks]
  · cases hv : (collectCandidates s q (chunksOf t)).filter valid with
    | nil =>
        have hv' : (collectCandidates sr q (chunksOf t)).filter valid = [] := by
          rw [hcc, hv]
        rw [extractivePath_of_no_valid s q t hchunks hv,
          extractivePath_of_no_valid sr q t hchunks hv']
    | cons b rest =>
        have hv' : (collectCandidates sr q (chunksOf t)).filter valid = b :: rest := by
          rw [hcc, hv]
        rw [extractivePath_of_valid s q t b rest hchunks hv,
          extractivePath_of_valid sr q t b rest hchunks hv']

set_option maxRecDepth 100000 in
/-- C3 witness: a 413-character document gives two windows (lengths 413 and
1); the scorer that fails on the second window produces the same result as
the scorer that succeeds with zero candidates there. -/
theorem C3_failure_isolated_witness :
    get_answer
        ⟨none, fun _ ch => if ch.length = 1 then none else some [⟨some "a1".data, 3⟩]⟩
        "q".data (.str (List.replicate 413 'a')) =
      get_answer
        ⟨none, fun _ ch => if ch.length = 1 then some [] else some [⟨some "a1".data, 3⟩]⟩
        "q".data (.str (List.replicate 413 'a')) :=
  C3_failure_isolated _ _ _ _ (by decide)

/-- C4: for a document that is the empty string, None, or not a string, the
extractive path short-circuits to the empty-document sentinel (answer text
"The document appears to be empty.", score 0, context "N/A") and performs
zero scorer invocations; this is a returned value, not a raised error. -/
theorem C4_empty_document (s : Scorer) (q : Text) (t : PdfText)
    (h : t.isUsable = false) :
    get_answerT ⟨none, s⟩ q t = (emptyDocResult, ⟨[], []⟩) := by
  rw [get_answerT_none, extractivePath_of_no_chunks s q t (chunksOf_nil_of_not_usable t h)]

/-- C4 witness: the None document with an arbitrary scorer. -/
theorem C4_empty_document_witness :
    PdfText.isUsable .pyNone = false ∧
    get_answerT ⟨none, fun _ _ => some []⟩ "q".data .pyNone =
      (emptyDocResult, ⟨[], []⟩) :=
  ⟨rfl, C4_empty_document _ _ _ rfl⟩

/-- C5: when windows were produced but the filtered pool is empty, get_answer
returns the no-confident-answer sentinel (score 0, context "N/A") after
having invoked the scorer once per window, instead of failing. -/
theorem C5_no_confident_answer (s : Scorer) (q : Text) (t : PdfText)
    (h1 : chunksOf t ≠ [])
    (h2 : (collectCandidates s q (chunksOf t)).filter valid = []) :
    get_answerT ⟨none, s⟩ q t = (noAnswerResult, ⟨[], chunksOf t⟩) := by
  rw [get_answerT_none, extractivePath_of_no_valid s q t h1 h2]

/-- C5 witness: a scorer that returns zero candidates for every window. -/
theorem C5_no_confident_answer_witness :
    chunksOf (.str "abc".data) ≠ [] ∧
    get_answerT ⟨none, fun _ _ => some []⟩ "q".data (.str "abc".data) =
      (noAnswerResult, ⟨[], chunksOf (.str "abc".data)⟩) :=
  ⟨by decide, C5_no_confident_answer _ _ _ (by decide) (by decide)⟩

/-- C6: candidates with an empty or absent answer text are removed before
selection and never returned: every member of the filtered pool carries a
non-empty answer text, and the result is either one of the two sentinels or
renders a member of the filtered pool - so an empty-answer candidate cannot
be the result even when its score is the numeric maximum of the raw pool. -/
theorem C6_empty_answers_filtered (s : Scorer) (q : Text) (t : PdfText) :
    (∀ c ∈ (collectCandidates s q (chunksOf t)).filter valid,
      ∃ a, c.answer = some a ∧ a ≠ []) ∧
    (get_answer ⟨none, s⟩ q t = emptyDocResult ∨
     get_answer ⟨none, s⟩ q t = noAnswerResult ∨
     ∃ c ∈ (collectCandidates s q (chunksOf t)).filter valid,
       get_answer ⟨none, s⟩ q t = ⟨c.answer.getD [], c.score, c.context⟩) := by
  constructor
  · intro c hc
    have hv := (List.mem_filter.mp hc).2
    cases ha : c.answer with
    | none => simp [valid, ha] at hv
    | some a =>
        refine ⟨a, rfl, ?_⟩
        intro hnil
        simp [valid, ha, hnil] at hv
  · by_cases hchunks : chunksOf t = []
    · left
      show (extractivePath s q t).1 = _
      rw [extractivePath_of_no_chunks s q t hchunks]
    · cases hv : (collectCandidates s q (chunksOf t)).filter valid with
      | nil =>
          right; left
          show (extractivePath s q t).1 = _
          rw [extractivePath_of_no_valid s q t hchunks hv]
      | cons b rest =>
          right; right
          refine ⟨pickBest b rest, ?_, ?_⟩
          · exact pickBest_mem b rest
          · show (extractivePath s q t).1 = _
            rw [extractivePath_of_valid s q t b rest hchunks hv]

lemma chunksOf_str_ne_nil (u : Text) (hu : u ≠ []) : chunksOf (.str u) ≠ [] := by
  intro hnil
  have hlen := congrArg List.length hnil
  rw [chunksOf_str_length u hu] at hlen
  simp only [List.length_nil] at hlen
  have hL1 : 1 ≤ u.length := List.length_pos.mpr hu
  have h412 : max_chunk_len - overlap = 412 := by decide
  rw [h412] at hlen
  omega

/-- C7: every pooled candidate was annotated with the window it was scored
against before pooling, so the non-sentinel extractive result's sourceContext
is exactly the window - a contiguous substring of the document - whose
(successful) scorer call produced the selected candidate. -/
theorem C7_context_is_window (s : Scorer) (q doc : Text)
    (h : (collectCandidates s q (chunksOf (.str doc))).filter valid ≠ []) :
    ∃ ch ∈ chunksOf (.str doc), ∃ rs, s q ch = some rs ∧
      ∃ r ∈ rs,
        get_answer ⟨none, s⟩ q (.str doc) = ⟨r.answer.getD [], r.score, ch⟩ ∧
        ∃ u v, doc = u ++ ch ++ v := by
  have hchunks : chunksOf (.str doc) ≠ [] := by
    intro hnil
    apply h
    rw [hnil]
    rfl
  obtain ⟨b, rest, hvc⟩ :
      ∃ b rest, (collectCandidates s q (chunksOf (.str doc))).filter valid = b :: rest := by
    cases hv : (collectCandidates s q (chunksOf (.str doc))).filter valid with
    | nil => exact absurd hv h
    | cons b rest => exact ⟨b, rest, rfl⟩
  have hbmem : pickBest b rest ∈
      (collectCandidates s q (chunksOf (.str doc))).filter valid := by
    rw [hvc]
    exact pickBest_mem b rest
  have hpool : pickBest b rest ∈ collectCandidates s q (chunksOf (.str doc)) :=
    (List.mem_filter.mp hbmem).1
  obtain ⟨ch, hch, rs, hrs, r, hr, hcr⟩ := collect_mem s q _ _ hpool
  refine ⟨ch, hch, rs, hrs, r, hr, ?_, ?_⟩
  · show (extractivePath s q (.str doc)).1 = _
    rw [extractivePath_of_valid s q (.str doc) b rest hchunks hvc]
    rw [hcr]
  · have hdocne : doc ≠ [] := by
      intro hnil
      apply hchunks
      rw [hnil]
      rfl
    obtain ⟨k, hk, hck⟩ := mem_chunksOf_str doc ch hdocne hch
    rw [hck]
    exact chunk_occurs doc _ _

/-- C7 witness: one window "hello", one candidate; the result's context is
the window, a substring of the document. -/
theorem C7_context_is_window_witness :
    ∃ ch ∈ chunksOf (.str "hello".data),
      ∃ rs, (fun _ _ => some [⟨some "he".data, (7 : ℚ)⟩] : Scorer)
          "q".data ch = some rs ∧
      ∃ r ∈ rs,
        get_answer ⟨none, (fun _ _ => some [⟨some "he".data, (7 : ℚ)⟩] : Scorer)⟩
            "q".data (.str "hello".data) = ⟨r.answer.getD [], r.score, ch⟩ ∧
        ∃ u v, "hello".data = u ++ ch ++ v :=
  C7_context_is_window (fun _ _ => some [⟨some "he".data, (7 : ℚ)⟩] : Scorer)
    "q".data "hello".data (by decide)

/-- C8: get_answer is deterministic and depends on the scorer only through
its input-output behaviour: with the same model component, scorers that agree
on every (question, context) pair produce identical results and traces (and
repeating a call with identical arguments trivially yields the same value,
since get_answer is a pure function of its arguments). -/
theorem C8_deterministic (m : Option GenModel) (s1 s2 : Scorer) (q : Text)
    (t : PdfText) (h : ∀ q' c, s1 q' c = s2 q' c) :
    get_answerT ⟨m, s1⟩ q t = get_answerT ⟨m, s2⟩ q t := by
  have hs : s1 = s2 := funext fun a => funext fun b => h a b
  rw [hs]

/-- C8 witness: two syntactically different but extensionally equal scorers
yield the same result on a concrete query. -/
theorem C8_deterministic_witness :
    get_answerT ⟨none, fun _ _ => some []⟩ "q".data (.str "abc".data) =
      get_answerT ⟨none, fun _ _ => some (List.map id [])⟩ "q".data (.str "abc".data) :=
  C8_deterministic none _ _ "q".data (.str "abc".data) (fun _ _ => rfl)

/-- C9: when a generative model whose name_or_path contains "t5" is loaded,
get_answer performs exactly one model invocation, on the prompt embedding the
full document, makes no scorer call and builds no chunks, and the returned
result's confidenceScore is the constant 1. -/
theorem C9_generative_single_call (m : GenModel) (s : Scorer) (q : Text)
    (t : PdfText) (h : containsSub "t5".data m.name_or_path = true) :
    (get_answerT ⟨some m, s⟩ q t).1.score = 1 ∧
    (get_answerT ⟨some m, s⟩ q t).2 =
      ⟨["question: ".data ++ q ++ " context: ".data ++ t.render], []⟩ := by
  have hred : get_answerT ⟨some m, s⟩ q t =
      if containsSub "t5".data m.name_or_path
      then (⟨if (m.generate ("question: ".data ++ q ++ " context: ".data ++ t.render)).isEmpty
              then "FLAN-T5 could not generate an answer.".data
              else m.generate ("question: ".data ++ q ++ " context: ".data ++ t.render),
            1, genContextNote⟩,
            ⟨["question: ".data ++ q ++ " context: ".data ++ t.render], []⟩)
      else extractivePath s q t := rfl
  rw [hred, if_pos h]
  exact ⟨rfl, rfl⟩

/-- C9 witness: a concrete flan-t5 model component; one generate call on the
full prompt, no scorer contexts, score 1. -/
theorem C9_generative_single_call_witness :
    (get_answerT ⟨some ⟨"flan-t5".data, fun _ => "ok".data⟩, fun _ _ => some []⟩
        "q".data (.str "doc".data)).1.score = 1 ∧
    (get_answerT ⟨some ⟨"flan-t5".data, fun _ => "ok".data⟩, fun _ _ => some []⟩
        "q".data (.str "doc".data)).2 =
      ⟨["question: ".data ++ "q".data ++ " context: ".data ++ (PdfText.str "doc".data).render], []⟩ :=
  C9_generative_single_call _ _ _ _ (by decide)

/-- C10: a non-empty string document always produces at least one window;
every window is a non-empty slice of the document taken at an offset strictly
below its length; and the zero-window branch (the empty-document sentinel) is
reachable exactly for the empty, None, or non-string documents. -/
theorem C10_windows_nonempty (doc : Text) (h : doc ≠ []) :
    chunksOf (.str doc) ≠ [] ∧
    (∀ c ∈ chunksOf (.str doc), c ≠ [] ∧
      ∃ i, i < doc.length ∧ c = (doc.drop i).take max_chunk_len) ∧
    (∀ t : PdfText, chunksOf t = [] ↔ t.isUsable = false) := by
  refine ⟨chunksOf_str_ne_nil doc h, ?_, ?_⟩
  · intro c hc
    obtain ⟨k, hk, hck⟩ := mem_chunksOf_str doc c h hc
    have h412 : max_chunk_len - overlap = 412 := by decide
    rw [h412] at hk
    refine ⟨?_, k * (max_chunk_len - overlap), by rw [h412]; exact hk, hck⟩
    intro hnil
    rw [hck] at hnil
    have hlen := congrArg List.length hnil
    rw [window_length] at hlen
    simp only [List.length_nil] at hlen
    rw [h412, show max_chunk_len = 512 from rfl] at hlen
    omega
  · intro t
    constructor
    · intro hnil
      cases t with
      | str u =>
          by_cases hu : u = []
          · simp [PdfText.isUsable, hu]
          · exact absurd hnil (chunksOf_str_ne_nil u hu)
      | pyNone => rfl
      | nonString r => rfl
    · exact chunksOf_nil_of_not_usable t

/-- C10 witness: the one-character document produces a window. -/
theorem C10_windows_nonempty_witness :
    "a".data ≠ ([] : Text) ∧ chunksOf (.str "a".data) ≠ [] :=
  ⟨by decide, (C10_windows_nonempty "a".data (by decide)).1⟩

end QAPipe
